import Mathlib

/-! Lock ordering and guarded counters in the Go teaching snippets.

A shallow embedding of

* `GoConcurrency/cmd/Fix_Deadlock/cmd/AvoidingDeadlock/main.go`
* `GoConcurrency/cmd/Fix_Deadlock/cmd/Fix1_LockOrdering/main.go`
* `GoConcurrency/cmd/Fix_Deadlock/cmd/Fix2_LockOrdering/main.go`
* `Mutex/cmd/lock/main.go`
* `Composition/main.go`

A pointer `*value` is the number `uintptr(unsafe.Pointer(v))`.  The body of a
`printSum` is a list of statements (`Stmt`); running it yields the primitive
events (`Event`) in the order Go performs them, the deferred calls last and in
last-registered-first order.  Events act on a `State` (memory and standard
output); a `Lock` on a locked mutex blocks and an `Unlock` of an unlocked mutex
is the runtime's fatal error; `wg.Done()` lowers the counter of the wait group
and panics below 0.  Two goroutines are interleaved by `Sys.step`.  The file
of `Composition` is a record whose methods return their results together with
the file, and the caller's slice, after the call.
-/

namespace GoSnippets

/-! ## Memory -/

/-! A `*value` is the natural number `uintptr(unsafe.Pointer(v))`, its address;
two pointers are equal exactly when their addresses are. -/

/-- Go `int` on a 64-bit platform: a result is wrapped into `[-2^63, 2^63)`. -/
def wrapInt (x : Int) : Int := (x + 2 ^ 63) % 2 ^ 64 - 2 ^ 63

/-- The struct `value`: `mu sync.Mutex` (true while locked) and `value int`. -/
structure Value where
  mu : Bool
  value : Int
deriving DecidableEq

/-- Memory (the `value` stored at each address), the sums printed so far and
the counter of the package variable `wg sync.WaitGroup`. -/
structure State where
  heap : Nat → Value
  out : List Int
  wg : Int

/-- The state in which every `value` is the zero value (`var a, b value`),
nothing is printed and the counter of `wg` is 0. -/
def State.zero : State := ⟨fun _ => ⟨false, 0⟩, [], 0⟩

/-- The state of `main` after `var a, b value` and `wg.Add(2)`. -/
def State.main : State := { State.zero with wg := 2 }

/-- Store a new mutex state at address `p`. -/
def setMu (h : Nat → Value) (p : Nat) (b : Bool) : Nat → Value :=
  fun q => if q = p then { h q with mu := b } else h q

/-! ## Statements and events -/

/-- The statements that occur in the bodies of the `printSum` functions. -/
inductive Stmt where
  /-- The call `p.mu.Lock()`. -/
  | lock (p : Nat)
  /-- The call `p.mu.Unlock()`. -/
  | unlock (p : Nat)
  /-- The statement `defer p.mu.Unlock()`. -/
  | deferUnlock (p : Nat)
  /-- The statement `defer wg.Done()`. -/
  | deferDone
  /-- The call `time.Sleep(2 * time.Second)`. -/
  | sleep
  /-- The call `fmt.Printf("sum=%v\n", p.value+q.value)`. -/
  | printf (p q : Nat)
deriving DecidableEq

/-- The primitive actions a call performs at run time. -/
inductive Event where
  /-- A `Lock` of the mutex of the resource at `p`. -/
  | lock (p : Nat)
  /-- An `Unlock` of the mutex of the resource at `p`. -/
  | unlock (p : Nat)
  /-- The call `wg.Done()`. -/
  | done
  /-- A `time.Sleep`. -/
  | sleep
  /-- Printing of `p.value+q.value`. -/
  | printf (p q : Nat)
deriving DecidableEq

/-- Events of a function body, given the stack of calls deferred so far (top of
the stack first): a `defer` pushes its call, and when the body is over the
stack is run from its top. -/
def eventsFrom : List Stmt → List Event → List Event
  | [], deferred => deferred
  | .lock p :: rest, deferred => .lock p :: eventsFrom rest deferred
  | .unlock p :: rest, deferred => .unlock p :: eventsFrom rest deferred
  | .deferUnlock p :: rest, deferred => eventsFrom rest (.unlock p :: deferred)
  | .deferDone :: rest, deferred => eventsFrom rest (.done :: deferred)
  | .sleep :: rest, deferred => .sleep :: eventsFrom rest deferred
  | .printf p q :: rest, deferred => .printf p q :: eventsFrom rest deferred

/-- Events of a whole function body, in the order they are performed. -/
def events (body : List Stmt) : List Event := eventsFrom body []

/-- The resources whose mutex is locked, in the order of the `Lock` calls. -/
def lockOrder : List Event → List Nat
  | [] => []
  | .lock p :: es => p :: lockOrder es
  | _ :: es => lockOrder es

/-- The resources whose mutex is unlocked, in the order of the `Unlock` calls. -/
def unlockOrder : List Event → List Nat
  | [] => []
  | .unlock p :: es => p :: unlockOrder es
  | _ :: es => unlockOrder es

/-- The `Lock` and `Unlock` events among the events, in order. -/
def mutexEvents : List Event → List Event
  | [] => []
  | .lock p :: es => .lock p :: mutexEvents es
  | .unlock p :: es => .unlock p :: mutexEvents es
  | _ :: es => mutexEvents es

/-- What performing one event leads to. -/
inductive Outcome where
  /-- The event is performed and leaves this state. -/
  | ok (s : State)
  /-- A `Lock` on a locked mutex: the caller waits. -/
  | blocked
  /-- The program dies: an `Unlock` of an unlocked mutex (`fatal error: sync:
  unlock of unlocked mutex`) or a `Done` that takes the counter of `wg` below 0
  (`panic: sync: negative WaitGroup counter`). -/
  | fatal

/-- Effect of one event on the state. -/
def exec (e : Event) (s : State) : Outcome :=
  match e with
  | .lock p =>
    if (s.heap p).mu then .blocked else .ok { s with heap := setMu s.heap p true }
  | .unlock p =>
    if (s.heap p).mu then .ok { s with heap := setMu s.heap p false } else .fatal
  | .done => if s.wg - 1 < 0 then .fatal else .ok { s with wg := s.wg - 1 }
  | .sleep => .ok s
  | .printf p q =>
    .ok { s with out := s.out ++ [wrapInt ((s.heap p).value + (s.heap q).value)] }

/-- How a call run on its own ended. -/
inductive Status where
  /-- The call returned. -/
  | returned
  /-- The call waits for a mutex that nobody will unlock. -/
  | blocked
  /-- The call made the program die. -/
  | fatal
deriving DecidableEq

/-- Record of a call run on its own: the events it performed, the state it
left and how it ended. -/
structure Run where
  performed : List Event
  final : State
  status : Status

/-- Perform the events one after the other, with no other goroutine running. -/
def runEvents : List Event → State → Run
  | [], s => ⟨[], s, .returned⟩
  | e :: es, s =>
    match exec e s with
    | .ok s' => let r := runEvents es s'; { r with performed := e :: r.performed }
    | .blocked => ⟨[], s, .blocked⟩
    | .fatal => ⟨[], s, .fatal⟩

/-- Whether every `Unlock` among the events releases a mutex that the caller
holds at that moment, `held` being the mutexes it holds at the start. -/
def unlocksOnlyHeld : List Event → List Nat → Bool
  | [], _ => true
  | .lock p :: es, held => unlocksOnlyHeld es (p :: held)
  | .unlock p :: es, held => decide (p ∈ held) && unlocksOnlyHeld es (held.erase p)
  | _ :: es, held => unlocksOnlyHeld es held

/-! ## Rendering of a pointer with `%p` and comparison of strings -/

/-- The digits `fmt` uses: `const ldigits = "0123456789abcdefx"`. -/
def ldigits : String := "0123456789abcdefx"

/-- The digit of a number below 16, `ldigits[d]`. -/
def hexDigit (d : Nat) : Char := ldigits.toList.getD d '0'

/-- Hexadecimal digits of `u`, most significant first, without padding; the
first argument bounds the number of digits. -/
def hexDigits : Nat → Nat → List Char
  | 0, _ => []
  | fuel + 1, u =>
    if u < 16 then [hexDigit u] else hexDigits fuel (u / 16) ++ [hexDigit (u % 16)]

/-- The string `fmt.Sprintf("%p", v)`: `0x` and the address in lower-case
hexadecimal without padding. -/
def fmtPointer (p : Nat) : List Char := '0' :: 'x' :: hexDigits (p + 1) p

/-- Go's `<` on strings: bytewise lexicographic order. -/
def strLt : List Char → List Char → Bool
  | [], [] => false
  | [], _ :: _ => true
  | _ :: _, [] => false
  | c :: s, d :: t => if c < d then true else if d < c then false else strLt s t

/-! ## The three `printSum` functions -/

namespace AvoidingDeadlock

/-- The pair `first, second` of `printSum`: the arguments, swapped when
`uintptr(unsafe.Pointer(v1)) > uintptr(unsafe.Pointer(v2))`. -/
def firstSecond (v1 v2 : Nat) : Nat × Nat :=
  if v1 > v2 then (v2, v1) else (v1, v2)

/-- Body of `printSum(v1, v2)` of `AvoidingDeadlock/main.go`. -/
def printSum (v1 v2 : Nat) : List Stmt :=
  [ .deferDone,
    .lock (firstSecond v1 v2).1,
    .deferUnlock (firstSecond v1 v2).1,
    .sleep,
    .lock (firstSecond v1 v2).2,
    .deferUnlock (firstSecond v1 v2).2,
    .printf v1 v2 ]

end AvoidingDeadlock

namespace Fix1_LockOrdering

/-- Body of `printSum(v1, v2)` of `Fix1_LockOrdering/main.go`. -/
def printSum (v1 v2 : Nat) : List Stmt :=
  .deferDone ::
    (if strLt (fmtPointer v1) (fmtPointer v2) then
      [.lock v1, .sleep, .lock v2]
    else
      [.lock v2, .sleep, .lock v1]) ++
    [.printf v1 v2, .unlock v1, .unlock v2]

end Fix1_LockOrdering

namespace Fix2_LockOrdering

/-- Body of `printSum(v1, v2)` of `Fix2_LockOrdering/main.go`; the `value`
fields are read from memory `h` when the call starts. -/
def printSum (v1 v2 : Nat) (h : Nat → Value) : List Stmt :=
  .deferDone ::
    (if v1 = v2 then
      [.lock v1, .deferUnlock v1]
    else if (h v1).value < (h v2).value then
      [.lock v1, .lock v2, .deferUnlock v2, .deferUnlock v1]
    else
      [.lock v2, .lock v1, .deferUnlock v1, .deferUnlock v2]) ++
    [.sleep, .printf v1 v2]

end Fix2_LockOrdering

/-- The three programs that define a `printSum`. -/
inductive Variant where
  | avoidingDeadlock
  | fix1
  | fix2
deriving DecidableEq

/-- Body of `printSum(v1, v2)` of the given program, called in memory `h`. -/
def printSumOf (k : Variant) (v1 v2 : Nat) (h : Nat → Value) : List Stmt :=
  match k with
  | .avoidingDeadlock => AvoidingDeadlock.printSum v1 v2
  | .fix1 => Fix1_LockOrdering.printSum v1 v2
  | .fix2 => Fix2_LockOrdering.printSum v1 v2 h

/-- A call `printSum(v1, v2)` of the given program, run on its own from `s`. -/
def callPrintSum (k : Variant) (v1 v2 : Nat) (s : State) : Run :=
  runEvents (events (printSumOf k v1 v2 s.heap)) s

/-! ## Two goroutines running `printSum` -/

/-- A goroutine: the events it has performed and those it has still to perform. -/
structure Goroutine where
  performed : List Event
  todo : List Event

/-- The two goroutines started by `main`. -/
inductive Tid where
  | one
  | two
deriving DecidableEq

/-- The program while the two goroutines run: the state they share and each
goroutine's progress. -/
structure Sys where
  st : State
  g1 : Goroutine
  g2 : Goroutine

/-- One step of goroutine `t`: it performs its next event.  There is no step
when the goroutine is over, when its `Lock` has to wait, or when its event
makes the program die. -/
def Sys.step (s : Sys) (t : Tid) : Option Sys :=
  match t with
  | .one =>
    match s.g1.todo with
    | [] => none
    | e :: rest =>
      match exec e s.st with
      | .ok st' => some { s with st := st', g1 := ⟨s.g1.performed ++ [e], rest⟩ }
      | .blocked => none
      | .fatal => none
  | .two =>
    match s.g2.todo with
    | [] => none
    | e :: rest =>
      match exec e s.st with
      | .ok st' => some { s with st := st', g2 := ⟨s.g2.performed ++ [e], rest⟩ }
      | .blocked => none
      | .fatal => none

/-- The states the program can be in: the start, and whatever a step of either
goroutine leads to from such a state. -/
inductive Reachable (start : Sys) : Sys → Prop where
  | init : Reachable start start
  | next {s s' : Sys} (t : Tid) : Reachable start s → s.step t = some s' → Reachable start s'

/-- The steps of a schedule, one after the other; no result when one of them
cannot be taken. -/
def Sys.runSchedule (s : Sys) : List Tid → Option Sys
  | [] => some s
  | t :: ts => (s.step t).bind (fun s' => s'.runSchedule ts)

/-- The goroutine has locked the mutex of `p` and not unlocked it since. -/
def Goroutine.holds (g : Goroutine) (p : Nat) : Prop :=
  g.performed.count (.unlock p) < g.performed.count (.lock p)

/-- The goroutine's next event is a `Lock` of the mutex of `p`, which is locked. -/
def Goroutine.waitsFor (g : Goroutine) (st : State) (p : Nat) : Prop :=
  g.todo.head? = some (.lock p) ∧ (st.heap p).mu = true

/-- One goroutine holds `a.mu` and waits for `b.mu` while the other holds
`b.mu` and waits for `a.mu`. -/
def Sys.circularWait (s : Sys) (a b : Nat) : Prop :=
  (s.g1.holds a ∧ s.g1.waitsFor s.st b ∧ s.g2.holds b ∧ s.g2.waitsFor s.st a) ∨
  (s.g2.holds a ∧ s.g2.waitsFor s.st b ∧ s.g1.holds b ∧ s.g1.waitsFor s.st a)

/-- Both goroutines are over. -/
def Sys.finished (s : Sys) : Prop := s.g1.todo = [] ∧ s.g2.todo = []

/-- The program `main` of a variant once it has started its two goroutines,
`a` and `b` being the addresses of its variables: `go printSum(&a, &b)` and
`go printSum(&b, &a)`, after `wg.Add(2)`, in the memory where both are zero
values. -/
def mainSys (k : Variant) (a b : Nat) : Sys :=
  { st := State.main
    g1 := ⟨[], events (printSumOf k a b State.main.heap)⟩
    g2 := ⟨[], events (printSumOf k b a State.main.heap)⟩ }

/-! ## The counter of `Mutex/cmd/lock` -/

/-- The struct `SafeCounter`: `mu sync.Mutex` (true while locked) and `count int`. -/
structure SafeCounter where
  mu : Bool
  count : Int
deriving DecidableEq

/-- The method `Inc`: `c.mu.Lock()`, `c.count++`, and the deferred
`c.mu.Unlock()`.  There is no result when `Lock` finds the mutex locked: a
caller on its own waits for ever. -/
def SafeCounter.Inc (c : SafeCounter) : Option SafeCounter :=
  if c.mu then none
  else
    let c1 : SafeCounter := { c with mu := true }
    let c2 : SafeCounter := { c1 with count := wrapInt (c1.count + 1) }
    some { c2 with mu := false }

/-- The method `Value`: `c.mu.Lock()`, the value read for `return c.count`,
and the deferred `c.mu.Unlock()`. -/
def SafeCounter.Value (c : SafeCounter) : Option (Int × SafeCounter) :=
  if c.mu then none
  else
    let c1 : SafeCounter := { c with mu := true }
    let r := c1.count
    some (r, { c1 with mu := false })

/-- A call of a method of the counter. -/
inductive Call where
  | inc
  | value
deriving DecidableEq

/-- The calls made one after the other, as the mutex serialises them. -/
def runCalls : List Call → SafeCounter → Option SafeCounter
  | [], c => some c
  | .inc :: rest, c => (c.Inc).bind (runCalls rest)
  | .value :: rest, c => (c.Value).bind (fun r => runCalls rest r.2)

/-- The counter of `main`: `counter := SafeCounter{}`. -/
def SafeCounter.zero : SafeCounter := ⟨false, 0⟩

/-- The calls of `main`: 1000 goroutines that each call `counter.Inc()`. -/
def mainCalls : List Call := List.replicate 1000 Call.inc

/-! ## The invariant of the two goroutines of AvoidingDeadlock -/

/-- The events of a `printSum` of AvoidingDeadlock whose `first` is `lo` and
whose `second` is `hi`, called with the arguments `v1`, `v2`. -/
def AvoidingDeadlock.orderedEvents (lo hi v1 v2 : Nat) : List Event :=
  [.lock lo, .sleep, .lock hi, .printf v1 v2, .unlock hi, .unlock lo, .done]

/-- The goroutine that has performed the first `i` events of `prog`. -/
def Goroutine.atPhase (prog : List Event) (i : Nat) : Goroutine := ⟨prog.take i, prog.drop i⟩

/-- Invariant of the two goroutines: each is at some point of its events, the
mutex of `lo` is locked exactly while one of them is between its `Lock` and
its `Unlock` of it, likewise for `hi`, they are never both between the
`Lock` and the `Unlock` of `lo`, and the counter of `wg` is the number of
goroutines that have not called `Done`. -/
def AvoidingDeadlock.Inv (lo hi a b : Nat) (s : Sys) : Prop :=
  ∃ i j, i ≤ 7 ∧ j ≤ 7 ∧
    s.g1 = Goroutine.atPhase (orderedEvents lo hi a b) i ∧
    s.g2 = Goroutine.atPhase (orderedEvents lo hi b a) j ∧
    ((s.st.heap lo).mu = true ↔ (1 ≤ i ∧ i ≤ 5) ∨ (1 ≤ j ∧ j ≤ 5)) ∧
    ((s.st.heap hi).mu = true ↔ (3 ≤ i ∧ i ≤ 4) ∨ (3 ≤ j ∧ j ≤ 4)) ∧
    ¬ ((1 ≤ i ∧ i ≤ 5) ∧ (1 ≤ j ∧ j ≤ 5)) ∧
    s.st.wg = (if i = 7 then 0 else 1) + (if j = 7 then 0 else 1)

/-- A state of `main` of AvoidingDeadlock with `a` at `0xc000012000` and `b` at
`0xc000012010`: the first goroutine has locked both mutexes, the second has
not started and its first `Lock` has to wait. -/
def AvoidingDeadlock.sampleState : Sys :=
  { st := ⟨setMu (setMu State.zero.heap 0xc000012000 true) 0xc000012010 true, [], 2⟩
    g1 := ⟨[.lock 0xc000012000, .sleep, .lock 0xc000012010],
      [.printf 0xc000012000 0xc000012010, .unlock 0xc000012010, .unlock 0xc000012000, .done]⟩
    g2 := ⟨[], [.lock 0xc000012000, .sleep, .lock 0xc000012010,
      .printf 0xc000012010 0xc000012000, .unlock 0xc000012010, .unlock 0xc000012000, .done]⟩ }

/-! ## The simulated file of `Composition/main.go` -/

namespace Composition

/-- The values of type `error` that the program creates: only `io.EOF`; `nil`
is `none`. -/
inductive GoError where
  | EOF
deriving DecidableEq

/-- The struct `FileProcessor`: `name string` and `contents []byte`, a byte
being a natural number. -/
structure FileProcessor where
  name : String
  contents : List Nat
deriving DecidableEq

/-- The built-in `copy(dst, src)`: it copies the first `min(len(dst), len(src))`
elements of `src` over the first elements of `dst`; the result is the number of
elements copied and `dst` after the copy. -/
def copy (dst src : List Nat) : Nat × List Nat :=
  (min dst.length src.length,
    src.take (min dst.length src.length) ++ dst.drop (min dst.length src.length))

/-- What `Read` returns and leaves: `n`, `err`, the caller's slice `data` after
the call, and the file after the call. -/
structure ReadResult where
  n : Nat
  err : Option GoError
  data : List Nat
  file : FileProcessor

/-- The method `Read`: `(0, io.EOF)` when `contents` is empty, otherwise
`n := copy(data, f.contents)`, `f.contents = f.contents[n:]` and `(n, nil)`. -/
def FileProcessor.Read (f : FileProcessor) (data : List Nat) : ReadResult :=
  if f.contents.length = 0 then
    ⟨0, some .EOF, data, f⟩
  else
    ⟨(copy data f.contents).1, none, (copy data f.contents).2,
      { f with contents := f.contents.drop (copy data f.contents).1 }⟩

/-- What `Write` returns and leaves: `n`, `err` and the file after the call. -/
structure WriteResult where
  n : Nat
  err : Option GoError
  file : FileProcessor

/-- The method `Write`: `f.contents = append(f.contents, data...)` and
`(len(data), nil)`. -/
def FileProcessor.Write (f : FileProcessor) (data : List Nat) : WriteResult :=
  ⟨data.length, none, { f with contents := f.contents ++ data }⟩

/-- What the program prints. -/
inductive Printed where
  /-- The output of `fmt.Printf("Read: %s\n", string(bytes))`. -/
  | read (bytes : List Nat)
  /-- The output of `fmt.Printf("Closing %s\n", name)`. -/
  | closing (name : String)
  /-- The output of `fmt.Printf("Error: %v\n", err)`. -/
  | error (err : GoError)
deriving DecidableEq

/-- The method `Close`: it prints `Closing` and the name, and returns `nil`;
the result is the error and the output so far. -/
def FileProcessor.Close (f : FileProcessor) (out : List Printed) :
    Option GoError × List Printed :=
  (none, out ++ [.closing f.name])

/-- The bytes of `[]byte("Hello, World")`. -/
def helloWorld : List Nat := "Hello, World".toList.map Char.toNat

/-- What `ProcessFile` returns and leaves: the error, the file and the output. -/
structure ProcessResult where
  err : Option GoError
  file : FileProcessor
  out : List Printed

/-- The function `ProcessFile` called with a `*FileProcessor` as its
`ReadWriteCloser`, as `main` does, `out` being the output so far. -/
def ProcessFile (rwc : FileProcessor) (out : List Printed) : ProcessResult :=
  if (rwc.Write helloWorld).err ≠ none then
    ⟨(rwc.Write helloWorld).err, (rwc.Write helloWorld).file, out⟩
  else
    let buffer := List.replicate 100 0
    let r := (rwc.Write helloWorld).file.Read buffer
    if r.err ≠ none ∧ r.err ≠ some .EOF then
      ⟨r.err, r.file, out⟩
    else
      ⟨(r.file.Close (out ++ [.read (r.data.take r.n)])).1, r.file,
        (r.file.Close (out ++ [.read (r.data.take r.n)])).2⟩

/-- The file of `main`: `&FileProcessor{name: "example.txt", contents: []byte{}}`. -/
def mainFile : FileProcessor := ⟨"example.txt", []⟩

/-- The function `main`: what it has printed when it returns. -/
def main : List Printed :=
  match (ProcessFile mainFile []).err with
  | none => (ProcessFile mainFile []).out
  | some err => (ProcessFile mainFile []).out ++ [.error err]

end Composition

/-! ## Lemmas on the rendering of pointers and on string comparison -/

/-- No string is below itself. -/
theorem strLt_irrefl (s : List Char) : strLt s s = false := by
  induction s with
  | nil => rfl
  | cons c s ih => simp [strLt, ih]

/-- If `s < t` then not `t < s`. -/
theorem strLt_asymm (s t : List Char) (h : strLt s t = true) : strLt t s = false := by
  induction s generalizing t with
  | nil => cases t <;> simp_all [strLt]
  | cons c s ih =>
    cases t with
    | nil => simp [strLt] at h
    | cons d t =>
      simp only [strLt] at h ⊢
      by_cases hcd : c < d
      · have hdc : ¬ d < c := lt_asymm hcd
        simp [hdc, hcd]
      · by_cases hdc : d < c
        · simp [hcd, hdc] at h
        · simp only [hcd, hdc, if_false] at h ⊢
          exact ih t h

/-- Of two different strings one is below the other. -/
theorem strLt_total (s t : List Char) (hne : s ≠ t) (h : strLt s t = false) :
    strLt t s = true := by
  induction s generalizing t with
  | nil =>
    cases t with
    | nil => exact absurd rfl hne
    | cons d t => simp [strLt] at h
  | cons c s ih =>
    cases t with
    | nil => rfl
    | cons d t =>
      simp only [strLt] at h ⊢
      by_cases hcd : c < d
      · simp [hcd] at h
      · by_cases hdc : d < c
        · simp [hdc]
        · have hcd' : c = d := le_antisymm (not_lt.mp hdc) (not_lt.mp hcd)
          subst hcd'
          simp only [hcd, if_false] at h ⊢
          exact ih t (fun hst => hne (by rw [hst])) h

/-- Different numbers below 16 have different digits. -/
theorem hexDigit_injOn (d e : Nat) (hd : d < 16) (he : e < 16)
    (h : hexDigit d = hexDigit e) : d = e := by
  interval_cases d <;> interval_cases e <;> first | rfl | (exact absurd h (by decide))

/-- Every number has at least one digit. -/
theorem hexDigits_ne_nil (fuel u : Nat) (h : u < fuel) : hexDigits fuel u ≠ [] := by
  cases fuel with
  | zero => omega
  | succ f =>
    unfold hexDigits
    split <;> simp

/-- Different numbers have different digit sequences. -/
theorem hexDigits_inj (fuel fuel' u v : Nat) (hu : u < fuel) (hv : v < fuel')
    (h : hexDigits fuel u = hexDigits fuel' v) : u = v := by
  induction fuel generalizing fuel' u v with
  | zero => omega
  | succ f ih =>
    cases fuel' with
    | zero => omega
    | succ f' =>
      unfold hexDigits at h
      by_cases hu16 : u < 16
      · by_cases hv16 : v < 16
        · simp only [hu16, hv16, if_true] at h
          exact hexDigit_injOn u v hu16 hv16 (by simpa using h)
        · simp only [hu16, hv16, if_true, if_false] at h
          have hne := hexDigits_ne_nil f' (v / 16) (by omega)
          have hlen := congrArg List.length h
          have : (hexDigits f' (v / 16)).length ≠ 0 := by
            simpa [List.length_eq_zero] using hne
          simp only [List.length_append, List.length_singleton, List.length_cons,
            List.length_nil] at hlen
          omega
      · by_cases hv16 : v < 16
        · simp only [hu16, hv16, if_true, if_false] at h
          have hne := hexDigits_ne_nil f (u / 16) (by omega)
          have hlen := congrArg List.length h
          have : (hexDigits f (u / 16)).length ≠ 0 := by
            simpa [List.length_eq_zero] using hne
          simp only [List.length_append, List.length_singleton, List.length_cons,
            List.length_nil] at hlen
          omega
        · simp only [hu16, hv16, if_false] at h
          have h' := List.append_inj' h (by simp)
          have h1 := ih f' (u / 16) (v / 16) (by omega) (by omega) h'.1
          have h2 := hexDigit_injOn (u % 16) (v % 16) (Nat.mod_lt _ (by decide))
            (Nat.mod_lt _ (by decide)) (by simpa using h'.2)
          omega

/-- Different addresses have different `%p` renderings. -/
theorem fmtPointer_injective (p q : Nat) (h : fmtPointer p = fmtPointer q) : p = q := by
  unfold fmtPointer at h
  simp only [List.cons.injEq, true_and] at h
  exact hexDigits_inj _ _ p q (by omega) (by omega) h

/-- The digits grow with the numbers they stand for. -/
theorem hexDigit_lt (d e : Nat) (he : e < 16) (h : d < e) : hexDigit d < hexDigit e := by
  interval_cases e <;> interval_cases d <;> decide

/-- Comparison of two strings of the same length that each end in one more
character: the earlier characters decide, and the last ones when those agree. -/
theorem strLt_snoc (s t : List Char) (c d : Char) (hlen : s.length = t.length) :
    strLt (s ++ [c]) (t ++ [d]) = (strLt s t || (decide (s = t) && decide (c < d))) := by
  induction s generalizing t with
  | nil =>
    cases t with
    | nil =>
      by_cases hcd : c < d
      · simp [strLt, hcd]
      · by_cases hdc : d < c <;> simp [strLt, hcd, hdc]
    | cons y t => simp at hlen
  | cons x s ih =>
    cases t with
    | nil => simp at hlen
    | cons y t =>
      have hlen' : s.length = t.length := by simpa using hlen
      simp only [List.cons_append, strLt]
      by_cases hxy : x < y
      · simp [hxy]
      · by_cases hyx : y < x
        · have : x ≠ y := fun e => hxy (e ▸ hyx)
          simp [hxy, hyx, this]
        · have hxy' : x = y := le_antisymm (not_lt.mp hyx) (not_lt.mp hxy)
          subst hxy'
          simp only [lt_irrefl, if_false]
          have hrec := ih t hlen'
          simp only [List.append_eq] at hrec ⊢
          rw [hrec]
          simp

/-- The digits of a number do not depend on the bound, once it is large enough. -/
theorem hexDigits_fuel (fuel fuel' : Nat) :
    ∀ u : Nat, u < fuel → u < fuel' → hexDigits fuel u = hexDigits fuel' u := by
  induction fuel generalizing fuel' with
  | zero => intro u hu; omega
  | succ f ih =>
    intro u hu hu'
    cases fuel' with
    | zero => omega
    | succ f' =>
      unfold hexDigits
      by_cases h16 : u < 16
      · simp [h16]
      · simp only [h16, if_false]
        rw [ih f' (u / 16) (by omega) (by omega)]

/-- On numbers with the same number of digits the order of the digit strings
is the order of the numbers. -/
theorem strLt_hexDigits (fuel fuel' : Nat) :
    ∀ u v : Nat, u < fuel → v < fuel' →
      (hexDigits fuel u).length = (hexDigits fuel' v).length →
      (strLt (hexDigits fuel u) (hexDigits fuel' v) = true ↔ u < v) := by
  induction fuel generalizing fuel' with
  | zero => intro u v hu; omega
  | succ f ih =>
    intro u v hu hv hlen
    cases fuel' with
    | zero => omega
    | succ f' =>
      unfold hexDigits at hlen ⊢
      by_cases hu16 : u < 16
      · by_cases hv16 : v < 16
        · simp only [hu16, hv16, if_true, strLt]
          rcases Nat.lt_trichotomy u v with h | h | h
          · simp [hexDigit_lt u v hv16 h, h]
          · subst h; simp
          · have := hexDigit_lt v u hu16 h
            simp [this, lt_asymm this, Nat.lt_asymm h]
        · simp only [hu16, hv16, if_true, if_false, List.length_append, List.length_singleton,
            List.length_cons, List.length_nil] at hlen
          have := hexDigits_ne_nil f' (v / 16) (by omega)
          have : (hexDigits f' (v / 16)).length ≠ 0 := by
            simpa [List.length_eq_zero] using this
          omega
      · by_cases hv16 : v < 16
        · simp only [hu16, hv16, if_true, if_false, List.length_append, List.length_singleton,
            List.length_cons, List.length_nil] at hlen
          have := hexDigits_ne_nil f (u / 16) (by omega)
          have : (hexDigits f (u / 16)).length ≠ 0 := by
            simpa [List.length_eq_zero] using this
          omega
        · simp only [hu16, hv16, if_false, List.length_append, List.length_singleton] at hlen ⊢
          have hlen' : (hexDigits f (u / 16)).length = (hexDigits f' (v / 16)).length := by omega
          have hrec := ih f' (u / 16) (v / 16) (by omega) (by omega) hlen'
          rw [strLt_snoc _ _ _ _ hlen']
          have hmu : u % 16 < 16 := Nat.mod_lt _ (by decide)
          have hmv : v % 16 < 16 := Nat.mod_lt _ (by decide)
          constructor
          · intro h
            simp only [Bool.or_eq_true, Bool.and_eq_true, decide_eq_true_eq] at h
            rcases h with h | ⟨heq, hd⟩
            · have := hrec.mp h
              omega
            · have hq := hexDigits_inj _ _ _ _ (by omega) (by omega) heq
              have hd' : u % 16 < v % 16 := by
                by_contra hcon
                rcases Nat.lt_or_ge (v % 16) (u % 16) with h1 | h1
                · exact lt_asymm hd (hexDigit_lt _ _ hmu h1)
                · have : u % 16 = v % 16 := by omega
                  rw [this] at hd
                  exact lt_irrefl _ hd
              omega
          · intro h
            simp only [Bool.or_eq_true, Bool.and_eq_true, decide_eq_true_eq]
            rcases Nat.lt_trichotomy (u / 16) (v / 16) with h1 | h1 | h1
            · exact Or.inl (hrec.mpr h1)
            · right
              refine ⟨?_, hexDigit_lt _ _ hmv (by omega)⟩
              rw [h1]
              exact hexDigits_fuel f f' (v / 16) (by omega) (by omega)
            · omega

/-! ## Reachable states -/

/-- What a schedule leads to from a reachable state is reachable. -/
theorem reachable_of_runSchedule (start : Sys) (sched : List Tid) :
    ∀ (s s' : Sys), Reachable start s → s.runSchedule sched = some s' → Reachable start s' := by
  induction sched with
  | nil =>
    intro s s' hs h
    simp only [Sys.runSchedule, Option.some.injEq] at h
    exact h ▸ hs
  | cons t ts ih =>
    intro s s' hs h
    simp only [Sys.runSchedule] at h
    cases hst : s.step t with
    | none => simp [hst] at h
    | some s1 =>
      rw [hst] at h
      exact ih s1 s' (Reachable.next t hs hst) h


/-- A step performs one event: the events still to perform are one fewer. -/
theorem Sys.step_todo_length (s s' : Sys) (t : Tid) (h : s.step t = some s') :
    s'.g1.todo.length + s'.g2.todo.length + 1 = s.g1.todo.length + s.g2.todo.length := by
  cases t with
  | one =>
    simp only [Sys.step] at h
    cases htodo : s.g1.todo with
    | nil => simp [htodo] at h
    | cons e rest =>
      rw [htodo] at h
      cases hexec : exec e s.st with
      | ok st' =>
        simp only [hexec, Option.some.injEq] at h
        subst h
        simp only [List.length_cons]
        omega
      | blocked => simp [hexec] at h
      | fatal => simp [hexec] at h
  | two =>
    simp only [Sys.step] at h
    cases htodo : s.g2.todo with
    | nil => simp [htodo] at h
    | cons e rest =>
      rw [htodo] at h
      cases hexec : exec e s.st with
      | ok st' =>
        simp only [hexec, Option.some.injEq] at h
        subst h
        simp only [List.length_cons]
        omega
      | blocked => simp [hexec] at h
      | fatal => simp [hexec] at h

/-- A schedule performs as many events as it has steps. -/
theorem Sys.runSchedule_todo_length (sched : List Tid) :
    ∀ (s s' : Sys), s.runSchedule sched = some s' →
      s'.g1.todo.length + s'.g2.todo.length + sched.length =
        s.g1.todo.length + s.g2.todo.length := by
  induction sched with
  | nil =>
    intro s s' h
    simp only [Sys.runSchedule, Option.some.injEq] at h
    subst h
    rfl
  | cons t ts ih =>
    intro s s' h
    simp only [Sys.runSchedule] at h
    cases hst : s.step t with
    | none => simp [hst] at h
    | some s1 =>
      rw [hst] at h
      have h1 := Sys.step_todo_length s s1 t hst
      have h2 := ih s1 s' h
      simp only [List.length_cons]
      omega

/-! ## The two goroutines of AvoidingDeadlock -/

/-- A step of either goroutine keeps the invariant. -/
theorem AvoidingDeadlock.inv_step (lo hi a b : Nat) (hne : lo ≠ hi) (s s' : Sys) (t : Tid)
    (hinv : Inv lo hi a b s) (hstep : s.step t = some s') : Inv lo hi a b s' := by
  obtain ⟨i, j, hi7, hj7, hg1, hg2, hlo, hhi, hex, hwg⟩ := hinv
  obtain ⟨st, g1, g2⟩ := s
  simp only at hg1 hg2 hlo hhi hwg
  subst hg1 hg2
  have hne' : ¬ hi = lo := fun e => hne e.symm
  cases t with
  | one =>
    refine ⟨i + 1, j, ?_⟩
    interval_cases i <;> interval_cases j <;>
      simp [Sys.step, Goroutine.atPhase, orderedEvents, exec] at hstep hlo hhi hex hwg ⊢
    all_goals simp_all
    all_goals subst hstep
    all_goals simp_all [setMu]
  | two =>
    refine ⟨i, j + 1, ?_⟩
    interval_cases i <;> interval_cases j <;>
      simp [Sys.step, Goroutine.atPhase, orderedEvents, exec] at hstep hlo hhi hex hwg ⊢
    all_goals simp_all
    all_goals subst hstep
    all_goals simp_all [setMu]

/-- The events of `printSum(v1, v2)`: `first` is the lower address. -/
theorem AvoidingDeadlock.events_printSum (v1 v2 : Nat) :
    events (printSum v1 v2) = orderedEvents (min v1 v2) (max v1 v2) v1 v2 := by
  by_cases h : v1 > v2
  · simp [printSum, firstSecond, events, eventsFrom, orderedEvents, h,
      Nat.min_eq_right (Nat.le_of_lt h), Nat.max_eq_left (Nat.le_of_lt h)]
  · simp [printSum, firstSecond, events, eventsFrom, orderedEvents, h,
      Nat.min_eq_left (Nat.le_of_not_lt h), Nat.max_eq_right (Nat.le_of_not_lt h)]

/-- The invariant holds in every reachable state. -/
theorem AvoidingDeadlock.inv_reachable (lo hi a b : Nat) (hne : lo ≠ hi) (s : Sys)
    (hs : Reachable ⟨State.main, ⟨[], orderedEvents lo hi a b⟩, ⟨[], orderedEvents lo hi b a⟩⟩ s) :
    Inv lo hi a b s := by
  induction hs with
  | init =>
    refine ⟨0, 0, by omega, by omega, rfl, rfl, ?_, ?_, ?_, ?_⟩ <;>
      simp [State.main, State.zero]
  | next t _ hstep ih => exact inv_step lo hi a b hne _ _ t ih hstep

/-- A goroutine never holds the mutex of `hi` while its next event is the
`Lock` of `lo`. -/
theorem AvoidingDeadlock.inv_no_hold_hi_wait_lo (lo hi v1 v2 : Nat) (hne : lo ≠ hi) (st : State)
    (i : Nat) (hi7 : i ≤ 7) :
    ¬ ((Goroutine.atPhase (orderedEvents lo hi v1 v2) i).holds hi ∧
       (Goroutine.atPhase (orderedEvents lo hi v1 v2) i).waitsFor st lo) := by
  have hne' : ¬ hi = lo := fun e => hne e.symm
  interval_cases i <;>
    simp [Goroutine.atPhase, orderedEvents, Goroutine.holds, Goroutine.waitsFor, hne, hne']

/-- Under the invariant, some goroutine can step unless both are over. -/
theorem AvoidingDeadlock.inv_progress (lo hi a b : Nat) (s : Sys)
    (hinv : Inv lo hi a b s) (hfin : ¬ s.finished) : ∃ t s', s.step t = some s' := by
  obtain ⟨i, j, hi7, hj7, hg1, hg2, hlo, hhi, hex, hwg⟩ := hinv
  obtain ⟨st, g1, g2⟩ := s
  simp only at hg1 hg2 hlo hhi hwg
  subst hg1 hg2
  interval_cases i <;> interval_cases j <;>
    simp [Sys.finished, Goroutine.atPhase, orderedEvents] at hfin hlo hhi hex hwg <;>
    first
      | (refine ⟨.one, ?_⟩
         simp [Sys.step, Goroutine.atPhase, orderedEvents, exec, hlo, hhi, hwg]
         done)
      | (refine ⟨.two, ?_⟩
         simp [Sys.step, Goroutine.atPhase, orderedEvents, exec, hlo, hhi, hwg])

/-- C1: in AvoidingDeadlock, with `a` and `b` at distinct addresses and both
mutexes unlocked at the start, no state that the two goroutines of `main` can
reach, under any interleaving of their steps, has one goroutine holding `a.mu`
and waiting for `b.mu` while the other holds `b.mu` and waits for `a.mu`; and
in every reachable state in which a goroutine is not over, some goroutine can
take a step (no deadlock). -/
theorem avoidingDeadlock_no_deadlock (a b : Nat) (hab : a ≠ b) (s : Sys)
    (hs : Reachable (mainSys .avoidingDeadlock a b) s) :
    ¬ s.circularWait a b ∧ (¬ s.finished → ∃ t s', s.step t = some s') := by
  have hlohi : min a b ≠ max a b := by
    rcases Nat.lt_or_gt_of_ne hab with h | h
    · rw [Nat.min_eq_left (Nat.le_of_lt h), Nat.max_eq_right (Nat.le_of_lt h)]; exact hab
    · rw [Nat.min_eq_right (Nat.le_of_lt h), Nat.max_eq_left (Nat.le_of_lt h)]; exact hab.symm
  have hstart : mainSys .avoidingDeadlock a b =
      ⟨State.main, ⟨[], AvoidingDeadlock.orderedEvents (min a b) (max a b) a b⟩,
        ⟨[], AvoidingDeadlock.orderedEvents (min a b) (max a b) b a⟩⟩ := by
    simp only [mainSys, printSumOf, AvoidingDeadlock.events_printSum, Nat.min_comm b a,
      Nat.max_comm b a]
  rw [hstart] at hs
  have hinv := AvoidingDeadlock.inv_reachable _ _ a b hlohi s hs
  refine ⟨?_, AvoidingDeadlock.inv_progress _ _ a b s hinv⟩
  obtain ⟨i, j, hi7, hj7, hg1, hg2, -, -, -, -⟩ := hinv
  have n1 := AvoidingDeadlock.inv_no_hold_hi_wait_lo _ _ a b hlohi s.st i hi7
  have n2 := AvoidingDeadlock.inv_no_hold_hi_wait_lo _ _ b a hlohi s.st j hj7
  rw [← hg1] at n1
  rw [← hg2] at n2
  rcases Nat.lt_or_gt_of_ne hab with h | h
  · rw [Nat.min_eq_left (Nat.le_of_lt h), Nat.max_eq_right (Nat.le_of_lt h)] at n1 n2
    rintro (⟨-, -, h3, h4⟩ | ⟨-, -, h3, h4⟩)
    · exact n2 ⟨h3, h4⟩
    · exact n1 ⟨h3, h4⟩
  · rw [Nat.min_eq_right (Nat.le_of_lt h), Nat.max_eq_left (Nat.le_of_lt h)] at n1 n2
    rintro (⟨h1, h2, -, -⟩ | ⟨h1, h2, -, -⟩)
    · exact n1 ⟨h1, h2⟩
    · exact n2 ⟨h1, h2⟩

/-- In AvoidingDeadlock no schedule of `main` has more than 14 steps, and one
of 14 steps ends with both goroutines over: as some goroutine can step in every
other reachable state, every run ends with both calls complete. -/
theorem AvoidingDeadlock.runs_end (a b : Nat) (sched : List Tid) (s : Sys)
    (h : (mainSys .avoidingDeadlock a b).runSchedule sched = some s) :
    sched.length ≤ 14 ∧ (sched.length = 14 → s.finished) := by
  have hlen := Sys.runSchedule_todo_length sched _ s h
  simp only [mainSys, printSumOf, events_printSum, orderedEvents, List.length_cons,
    List.length_nil] at hlen
  refine ⟨by omega, fun h14 => ?_⟩
  have h1 : s.g1.todo.length = 0 := by omega
  have h2 : s.g2.todo.length = 0 := by omega
  exact ⟨List.length_eq_zero.mp h1, List.length_eq_zero.mp h2⟩

/-- C1 at `a = 0xc000012000`, `b = 0xc000012010` and the state in which the
first goroutine holds both mutexes. -/
theorem avoidingDeadlock_no_deadlock_witness :
    (0xc000012000 : Nat) ≠ 0xc000012010 ∧
    Reachable (mainSys .avoidingDeadlock 0xc000012000 0xc000012010)
      AvoidingDeadlock.sampleState ∧
    ¬ AvoidingDeadlock.sampleState.circularWait 0xc000012000 0xc000012010 ∧
    (¬ AvoidingDeadlock.sampleState.finished →
      ∃ t s', AvoidingDeadlock.sampleState.step t = some s') :=
  ⟨by decide, reachable_of_runSchedule _ [.one, .one, .one] _ _ Reachable.init rfl,
    avoidingDeadlock_no_deadlock 0xc000012000 0xc000012010 (by decide)
      AvoidingDeadlock.sampleState
      (reachable_of_runSchedule _ [.one, .one, .one] _ _ Reachable.init rfl)⟩

/-! ## Order of acquisition -/

/-- C2: in AvoidingDeadlock, for two resources at distinct addresses,
`printSum(v1, v2)` and `printSum(v2, v1)` lock the two mutexes in the same
order, and that order is ascending by address: the mutex of the resource with
the smaller address first, the other second. -/
theorem avoidingDeadlock_lock_order_ascending (v1 v2 : Nat) (h : v1 ≠ v2) :
    lockOrder (events (AvoidingDeadlock.printSum v1 v2)) = [min v1 v2, max v1 v2] ∧
    lockOrder (events (AvoidingDeadlock.printSum v2 v1)) = [min v1 v2, max v1 v2] ∧
    min v1 v2 < max v1 v2 := by
  rcases Nat.lt_or_gt_of_ne h with hlt | hgt
  · have h1 : ¬ v1 > v2 := by omega
    have h2 : v2 > v1 := hlt
    simp [AvoidingDeadlock.printSum, AvoidingDeadlock.firstSecond, events, eventsFrom,
      lockOrder, h1, h2, Nat.min_eq_left (Nat.le_of_lt hlt), Nat.max_eq_right (Nat.le_of_lt hlt),
      hlt]
  · have h1 : v1 > v2 := hgt
    have h2 : ¬ v2 > v1 := by omega
    simp [AvoidingDeadlock.printSum, AvoidingDeadlock.firstSecond, events, eventsFrom,
      lockOrder, h1, h2, Nat.min_eq_right (Nat.le_of_lt hgt), Nat.max_eq_left (Nat.le_of_lt hgt),
      hgt]

/-- C2 at the addresses `0xc000012000` and `0xc000012010`. -/
theorem avoidingDeadlock_lock_order_ascending_witness :
    (0xc000012000 : Nat) ≠ 0xc000012010 ∧
    lockOrder (events (AvoidingDeadlock.printSum 0xc000012010 0xc000012000)) =
      [0xc000012000, 0xc000012010] :=
  ⟨by decide, (avoidingDeadlock_lock_order_ascending 0xc000012000 0xc000012010 (by decide)).2.1⟩

/-- C3 (the code at the failing input): in Fix2_LockOrdering with the two
`value` fields equal, as in `main` where both are 0, `printSum(&a, &b)` locks
`b` then `a` while `printSum(&b, &a)` locks `a` then `b`; and `main` can reach
a state in which each goroutine holds one mutex and waits for the other, from
which neither can step. -/
theorem fix2_equal_values_opposite_lock_order :
    lockOrder (events (Fix2_LockOrdering.printSum 0xc000012000 0xc000012010 State.main.heap)) =
      [0xc000012010, 0xc000012000] ∧
    lockOrder (events (Fix2_LockOrdering.printSum 0xc000012010 0xc000012000 State.main.heap)) =
      [0xc000012000, 0xc000012010] ∧
    ∃ s, Reachable (mainSys .fix2 0xc000012000 0xc000012010) s ∧
      s.circularWait 0xc000012000 0xc000012010 ∧ ¬ s.finished ∧ ∀ t, s.step t = none := by
  refine ⟨by decide, by decide, ?_⟩
  refine ⟨{ st := ⟨setMu (setMu State.main.heap 0xc000012010 true) 0xc000012000 true, [], 2⟩
            g1 := ⟨[.lock 0xc000012010], [.lock 0xc000012000, .sleep,
              .printf 0xc000012000 0xc000012010, .unlock 0xc000012010, .unlock 0xc000012000,
              .done]⟩
            g2 := ⟨[.lock 0xc000012000], [.lock 0xc000012010, .sleep,
              .printf 0xc000012010 0xc000012000, .unlock 0xc000012000, .unlock 0xc000012010,
              .done]⟩ },
    reachable_of_runSchedule _ [.one, .two] _ _ Reachable.init rfl, ?_, ?_, ?_⟩
  · right
    simp [Goroutine.holds, Goroutine.waitsFor, setMu]
  · simp [Sys.finished]
  · intro t
    cases t <;> simp [Sys.step, exec, setMu]

/-- In Fix2_LockOrdering two distinct resources are locked in the same order
by `printSum(v1, v2)` and `printSum(v2, v1)` exactly when their `value` fields
differ. -/
theorem fix2_same_lock_order_iff (v1 v2 : Nat) (h : Nat → Value) (hne : v1 ≠ v2) :
    lockOrder (events (Fix2_LockOrdering.printSum v1 v2 h)) =
      lockOrder (events (Fix2_LockOrdering.printSum v2 v1 h)) ↔
    (h v1).value ≠ (h v2).value := by
  have hne' : ¬ v2 = v1 := fun e => hne e.symm
  rcases lt_trichotomy (h v1).value (h v2).value with hlt | heq | hgt
  · have h21 : ¬ (h v2).value < (h v1).value := not_lt.mpr (le_of_lt hlt)
    simp [Fix2_LockOrdering.printSum, events, eventsFrom, lockOrder, hne, hne', hlt, h21,
      ne_of_lt hlt]
  · simp [Fix2_LockOrdering.printSum, events, eventsFrom, lockOrder, hne, hne', heq]
  · have h12 : ¬ (h v1).value < (h v2).value := not_lt.mpr (le_of_lt hgt)
    simp [Fix2_LockOrdering.printSum, events, eventsFrom, lockOrder, hne, hne', hgt, h12,
      ne_of_gt hgt]

/-- C4: in Fix1_LockOrdering, for two resources at distinct addresses,
`printSum(v1, v2)` and `printSum(v2, v1)` lock the two mutexes in the same
order, whichever way the resources are passed; the order is decided by
comparing the `%p` renderings of the two addresses as strings. -/
theorem fix1_same_lock_order (v1 v2 : Nat) (h : v1 ≠ v2) :
    lockOrder (events (Fix1_LockOrdering.printSum v1 v2)) =
      lockOrder (events (Fix1_LockOrdering.printSum v2 v1)) ∧
    lockOrder (events (Fix1_LockOrdering.printSum v1 v2)) =
      (if strLt (fmtPointer v1) (fmtPointer v2) then [v1, v2] else [v2, v1]) := by
  have hne : fmtPointer v1 ≠ fmtPointer v2 := fun e => h (fmtPointer_injective v1 v2 e)
  cases h12 : strLt (fmtPointer v1) (fmtPointer v2) with
  | true =>
    have h21 := strLt_asymm _ _ h12
    simp [Fix1_LockOrdering.printSum, events, eventsFrom, lockOrder, h12, h21]
  | false =>
    have h21 := strLt_total _ _ hne h12
    simp [Fix1_LockOrdering.printSum, events, eventsFrom, lockOrder, h12, h21]

/-- C4 at the addresses `0xc000012000` and `0xc000012010`. -/
theorem fix1_same_lock_order_witness :
    (0xc000012000 : Nat) ≠ 0xc000012010 ∧
    lockOrder (events (Fix1_LockOrdering.printSum 0xc000012000 0xc000012010)) =
      lockOrder (events (Fix1_LockOrdering.printSum 0xc000012010 0xc000012000)) :=
  ⟨by decide, (fix1_same_lock_order 0xc000012000 0xc000012010 (by decide)).1⟩

/-- C5 (the code at the failing inputs): in Fix1_LockOrdering the first mutex
locked is not always that of the lower address.  With the resources at
`0xfffffffff0` and `0x10000000000`, and likewise at `0x9` and `0x10`, the
renderings differ in length, the string comparison puts the higher address
first, and `printSum` locks the mutex of the higher address first, whichever
way the resources are passed. -/
theorem fix1_locks_higher_address_first :
    lockOrder (events (Fix1_LockOrdering.printSum 0xfffffffff0 0x10000000000)) =
      [0x10000000000, 0xfffffffff0] ∧
    lockOrder (events (Fix1_LockOrdering.printSum 0x10000000000 0xfffffffff0)) =
      [0x10000000000, 0xfffffffff0] ∧
    fmtPointer 0x9 = ['0', 'x', '9'] ∧ fmtPointer 0x10 = ['0', 'x', '1', '0'] ∧
    strLt (fmtPointer 0x10) (fmtPointer 0x9) = true ∧
    lockOrder (events (Fix1_LockOrdering.printSum 0x9 0x10)) = [0x10, 0x9] ∧
    lockOrder (events (Fix1_LockOrdering.printSum 0x10 0x9)) = [0x10, 0x9] := by
  decide

/-- In Fix1_LockOrdering, when the `%p` renderings of two distinct addresses
have the same length, `printSum` locks the mutex of the lower address first. -/
theorem fix1_lower_first_of_same_length (v1 v2 : Nat) (hne : v1 ≠ v2)
    (hlen : (fmtPointer v1).length = (fmtPointer v2).length) :
    lockOrder (events (Fix1_LockOrdering.printSum v1 v2)) = [min v1 v2, max v1 v2] := by
  have hlen' : (hexDigits (v1 + 1) v1).length = (hexDigits (v2 + 1) v2).length := by
    simpa [fmtPointer] using hlen
  have hiff := strLt_hexDigits (v1 + 1) (v2 + 1) v1 v2 (by omega) (by omega) hlen'
  have hstr : strLt (fmtPointer v1) (fmtPointer v2) = strLt (hexDigits (v1 + 1) v1)
      (hexDigits (v2 + 1) v2) := by
    simp [fmtPointer, strLt]
  rcases Nat.lt_or_gt_of_ne hne with h | h
  · have ht : strLt (fmtPointer v1) (fmtPointer v2) = true := by rw [hstr]; exact hiff.mpr h
    simp [Fix1_LockOrdering.printSum, events, eventsFrom, lockOrder, ht,
      Nat.min_eq_left (Nat.le_of_lt h), Nat.max_eq_right (Nat.le_of_lt h)]
  · have hf : strLt (fmtPointer v1) (fmtPointer v2) = false := by
      rw [hstr]
      cases hb : strLt (hexDigits (v1 + 1) v1) (hexDigits (v2 + 1) v2) with
      | false => rfl
      | true => exact absurd (hiff.mp hb) (by omega)
    simp [Fix1_LockOrdering.printSum, events, eventsFrom, lockOrder, hf,
      Nat.min_eq_right (Nat.le_of_lt h), Nat.max_eq_left (Nat.le_of_lt h)]

/-! ## Order of release -/

/-- C6: in AvoidingDeadlock, for two distinct resources whose mutexes are
unlocked (and a call counted by `wg.Add`, as in `main`), a call of `printSum`
returns and its mutex events are, in order, lock(first), lock(second),
unlock(second), unlock(first), where first is the resource locked first (the
one at the lower address): the mutexes are released in the reverse of the
order they were acquired. -/
theorem avoidingDeadlock_release_reverse (v1 v2 : Nat) (s : State) (h : v1 ≠ v2)
    (h1 : (s.heap v1).mu = false) (h2 : (s.heap v2).mu = false) (hwg : 0 < s.wg) :
    (callPrintSum .avoidingDeadlock v1 v2 s).status = .returned ∧
    mutexEvents (callPrintSum .avoidingDeadlock v1 v2 s).performed =
      [.lock (min v1 v2), .lock (max v1 v2), .unlock (max v1 v2), .unlock (min v1 v2)] ∧
    mutexEvents (events (AvoidingDeadlock.printSum v1 v2)) =
      [.lock (min v1 v2), .lock (max v1 v2), .unlock (max v1 v2), .unlock (min v1 v2)] := by
  have hwg' : ¬ s.wg - 1 < 0 := by omega
  rcases Nat.lt_or_gt_of_ne h with hlt | hgt
  · have hn : ¬ v1 > v2 := by omega
    have hne : ¬ v2 = v1 := fun e => h e.symm
    simp [callPrintSum, printSumOf, AvoidingDeadlock.printSum, AvoidingDeadlock.firstSecond,
      events, eventsFrom, runEvents, exec, setMu, mutexEvents, hn, h, hne, h1, h2, hwg',
      Nat.min_eq_left (Nat.le_of_lt hlt), Nat.max_eq_right (Nat.le_of_lt hlt)]
  · have hn : v1 > v2 := hgt
    have hne : ¬ v2 = v1 := fun e => h e.symm
    simp [callPrintSum, printSumOf, AvoidingDeadlock.printSum, AvoidingDeadlock.firstSecond,
      events, eventsFrom, runEvents, exec, setMu, mutexEvents, hn, h, hne, h1, h2, hwg',
      Nat.min_eq_right (Nat.le_of_lt hgt), Nat.max_eq_left (Nat.le_of_lt hgt)]

/-- C6 at the call `printSum(&b, &a)` of `main`. -/
theorem avoidingDeadlock_release_reverse_witness :
    (0xc000012010 : Nat) ≠ 0xc000012000 ∧
    (State.main.heap 0xc000012010).mu = false ∧ (State.main.heap 0xc000012000).mu = false ∧
    0 < State.main.wg ∧
    mutexEvents (callPrintSum .avoidingDeadlock 0xc000012010 0xc000012000 State.main).performed =
      [.lock 0xc000012000, .lock 0xc000012010, .unlock 0xc000012010, .unlock 0xc000012000] :=
  ⟨by decide, rfl, rfl, by decide,
    (avoidingDeadlock_release_reverse 0xc000012010 0xc000012000 State.main (by decide) rfl rfl
      (by decide)).2.1⟩

/-- C7 (as stated, refuted): in Fix2_LockOrdering the release is not the
reverse of the acquisition.  With `v1.value = 1 < v2.value = 2` the call locks
`v1` then `v2` and unlocks `v1` then `v2`, not `v2` then `v1`; with both
values 0 it locks `v2` then `v1` and unlocks `v2` then `v1`, not `v1` then
`v2`. -/
theorem fix2_release_not_reverse :
    lockOrder (callPrintSum .fix2 0xc000012000 0xc000012010
      ⟨fun p => ⟨false, if p = 0xc000012000 then 1 else 2⟩, [], 2⟩).performed =
        [0xc000012000, 0xc000012010] ∧
    unlockOrder (callPrintSum .fix2 0xc000012000 0xc000012010
      ⟨fun p => ⟨false, if p = 0xc000012000 then 1 else 2⟩, [], 2⟩).performed =
        [0xc000012000, 0xc000012010] ∧
    unlockOrder (callPrintSum .fix2 0xc000012000 0xc000012010
      ⟨fun p => ⟨false, if p = 0xc000012000 then 1 else 2⟩, [], 2⟩).performed ≠
        [0xc000012010, 0xc000012000] ∧
    lockOrder (callPrintSum .fix2 0xc000012000 0xc000012010 State.main).performed =
      [0xc000012010, 0xc000012000] ∧
    unlockOrder (callPrintSum .fix2 0xc000012000 0xc000012010 State.main).performed =
      [0xc000012010, 0xc000012000] ∧
    unlockOrder (callPrintSum .fix2 0xc000012000 0xc000012010 State.main).performed ≠
      [0xc000012000, 0xc000012010] := by
  decide

/-- C7 (amended): in Fix2_LockOrdering, for two distinct resources whose
mutexes are unlocked (and a call counted by `wg.Add`, as in `main`), a call of
`printSum` returns having released the two mutexes in the order it acquired
them: when `v1.value < v2.value` it locks `v1` then `v2` and unlocks `v1` then
`v2`, otherwise it locks `v2` then `v1` and unlocks `v2` then `v1`. -/
theorem fix2_release_in_acquisition_order (v1 v2 : Nat) (s : State) (h : v1 ≠ v2)
    (h1 : (s.heap v1).mu = false) (h2 : (s.heap v2).mu = false) (hwg : 0 < s.wg) :
    (callPrintSum .fix2 v1 v2 s).status = .returned ∧
    unlockOrder (callPrintSum .fix2 v1 v2 s).performed =
      lockOrder (callPrintSum .fix2 v1 v2 s).performed ∧
    lockOrder (callPrintSum .fix2 v1 v2 s).performed =
      (if (s.heap v1).value < (s.heap v2).value then [v1, v2] else [v2, v1]) ∧
    unlockOrder (events (Fix2_LockOrdering.printSum v1 v2 s.heap)) =
      lockOrder (events (Fix2_LockOrdering.printSum v1 v2 s.heap)) := by
  have hne : ¬ v2 = v1 := fun e => h e.symm
  have hwg' : ¬ s.wg - 1 < 0 := by omega
  by_cases hv : (s.heap v1).value < (s.heap v2).value
  · simp [callPrintSum, printSumOf, Fix2_LockOrdering.printSum, events, eventsFrom, runEvents,
      exec, setMu, lockOrder, unlockOrder, hv, h, hne, h1, h2, hwg']
  · simp [callPrintSum, printSumOf, Fix2_LockOrdering.printSum, events, eventsFrom, runEvents,
      exec, setMu, lockOrder, unlockOrder, hv, h, hne, h1, h2, hwg']

/-- C7 (amended) at the call `printSum(&a, &b)` of `main`. -/
theorem fix2_release_in_acquisition_order_witness :
    (0xc000012000 : Nat) ≠ 0xc000012010 ∧
    (State.main.heap 0xc000012000).mu = false ∧ (State.main.heap 0xc000012010).mu = false ∧
    0 < State.main.wg ∧
    unlockOrder (callPrintSum .fix2 0xc000012000 0xc000012010 State.main).performed =
      lockOrder (callPrintSum .fix2 0xc000012000 0xc000012010 State.main).performed :=
  ⟨by decide, rfl, rfl, by decide,
    (fix2_release_in_acquisition_order 0xc000012000 0xc000012010 State.main (by decide) rfl
      rfl (by decide)).2.1⟩

/-! ## A call on its own -/

/-- C8 (as stated, refuted): with two distinct resources whose mutexes are
unlocked, but the counter of `wg` at 0 (no `wg.Add` for the call), a call
`printSum(v1, v2)` does not return in any of the three programs: its deferred
`wg.Done()` panics. -/
theorem printSum_without_add_does_not_return :
    (0xc000012000 : Nat) ≠ 0xc000012010 ∧
    (State.zero.heap 0xc000012000).mu = false ∧ (State.zero.heap 0xc000012010).mu = false ∧
    (callPrintSum .avoidingDeadlock 0xc000012000 0xc000012010 State.zero).status = .fatal ∧
    (callPrintSum .fix1 0xc000012000 0xc000012010 State.zero).status = .fatal ∧
    (callPrintSum .fix2 0xc000012000 0xc000012010 State.zero).status = .fatal ∧
    (callPrintSum .avoidingDeadlock 0xc000012000 0xc000012010 State.zero).status ≠ .returned := by
  decide

/-- C8 (amended): for each of the three `printSum`, for two distinct resources
whose mutexes are unlocked before the call, a call `printSum(v1, v2)` on its
own locks each of the two mutexes exactly once and no other, unlocks each
exactly once and no other, never unlocks a mutex it does not hold, and leaves
both mutexes unlocked and both `value` fields unchanged; and it returns when
the counter of `wg` is positive before the call (the call is counted by
`wg.Add`, as in `main`). -/
theorem printSum_locks_and_unlocks_once (k : Variant) (v1 v2 : Nat) (s : State) (h : v1 ≠ v2)
    (h1 : (s.heap v1).mu = false) (h2 : (s.heap v2).mu = false) :
    (callPrintSum k v1 v2 s).performed.count (.lock v1) = 1 ∧
    (callPrintSum k v1 v2 s).performed.count (.lock v2) = 1 ∧
    (lockOrder (callPrintSum k v1 v2 s).performed).length = 2 ∧
    (callPrintSum k v1 v2 s).performed.count (.unlock v1) = 1 ∧
    (callPrintSum k v1 v2 s).performed.count (.unlock v2) = 1 ∧
    (unlockOrder (callPrintSum k v1 v2 s).performed).length = 2 ∧
    unlocksOnlyHeld (callPrintSum k v1 v2 s).performed [] = true ∧
    ((callPrintSum k v1 v2 s).final.heap v1).mu = false ∧
    ((callPrintSum k v1 v2 s).final.heap v2).mu = false ∧
    ((callPrintSum k v1 v2 s).final.heap v1).value = (s.heap v1).value ∧
    ((callPrintSum k v1 v2 s).final.heap v2).value = (s.heap v2).value ∧
    (0 < s.wg → (callPrintSum k v1 v2 s).status = .returned) := by
  have hne : ¬ v2 = v1 := fun e => h e.symm
  by_cases hw : s.wg - 1 < 0
  · have hw' : ¬ 0 < s.wg := by omega
    cases k with
    | avoidingDeadlock =>
      by_cases hgt : v1 > v2 <;>
        simp [callPrintSum, printSumOf, AvoidingDeadlock.printSum, AvoidingDeadlock.firstSecond,
          events, eventsFrom, runEvents, exec, setMu, lockOrder, unlockOrder, unlocksOnlyHeld,
          hgt, h, hne, h1, h2, hw, hw']
    | fix1 =>
      cases hlt : strLt (fmtPointer v1) (fmtPointer v2) <;>
        simp [callPrintSum, printSumOf, Fix1_LockOrdering.printSum, events, eventsFrom,
          runEvents, exec, setMu, lockOrder, unlockOrder, unlocksOnlyHeld, hlt, h, hne, h1, h2,
          hw, hw']
    | fix2 =>
      by_cases hv : (s.heap v1).value < (s.heap v2).value <;>
        simp [callPrintSum, printSumOf, Fix2_LockOrdering.printSum, events, eventsFrom,
          runEvents, exec, setMu, lockOrder, unlockOrder, unlocksOnlyHeld, hv, h, hne, h1, h2,
          hw, hw']
  · cases k with
    | avoidingDeadlock =>
      by_cases hgt : v1 > v2 <;>
        simp [callPrintSum, printSumOf, AvoidingDeadlock.printSum, AvoidingDeadlock.firstSecond,
          events, eventsFrom, runEvents, exec, setMu, lockOrder, unlockOrder, unlocksOnlyHeld,
          hgt, h, hne, h1, h2, hw]
    | fix1 =>
      cases hlt : strLt (fmtPointer v1) (fmtPointer v2) <;>
        simp [callPrintSum, printSumOf, Fix1_LockOrdering.printSum, events, eventsFrom,
          runEvents, exec, setMu, lockOrder, unlockOrder, unlocksOnlyHeld, hlt, h, hne, h1, h2,
          hw]
    | fix2 =>
      by_cases hv : (s.heap v1).value < (s.heap v2).value <;>
        simp [callPrintSum, printSumOf, Fix2_LockOrdering.printSum, events, eventsFrom,
          runEvents, exec, setMu, lockOrder, unlockOrder, unlocksOnlyHeld, hv, h, hne, h1, h2,
          hw]

/-- C8 (amended) at the call `printSum(&a, &b)` of `main` of Fix1_LockOrdering,
after `wg.Add(2)`. -/
theorem printSum_locks_and_unlocks_once_witness :
    (0xc000012000 : Nat) ≠ 0xc000012010 ∧
    (State.main.heap 0xc000012000).mu = false ∧ (State.main.heap 0xc000012010).mu = false ∧
    unlocksOnlyHeld (callPrintSum .fix1 0xc000012000 0xc000012010 State.main).performed [] =
      true ∧
    (callPrintSum .fix1 0xc000012000 0xc000012010 State.main).status = .returned :=
  ⟨by decide, rfl, rfl,
    (printSum_locks_and_unlocks_once .fix1 0xc000012000 0xc000012010 State.main (by decide) rfl
      rfl).2.2.2.2.2.2.1,
    (printSum_locks_and_unlocks_once .fix1 0xc000012000 0xc000012010 State.main (by decide) rfl
      rfl).2.2.2.2.2.2.2.2.2.2.2 (by decide)⟩

/-- C9 (as stated, refuted): in Fix2_LockOrdering a call that passes the same
resource as both arguments is not rejected: it performs a `Lock` on the
resource's mutex and returns. -/
theorem fix2_same_resource_locks :
    Event.lock 0xc000012000 ∈
      (callPrintSum .fix2 0xc000012000 0xc000012000 State.main).performed ∧
    lockOrder (callPrintSum .fix2 0xc000012000 0xc000012000 State.main).performed ≠ [] ∧
    (callPrintSum .fix2 0xc000012000 0xc000012000 State.main).status = .returned := by
  decide

/-- C9 (amended): in Fix2_LockOrdering a call that passes the same resource as
both arguments, its mutex unlocked, is not rejected: its mutex events are one
`Lock` and then one `Unlock` of the resource's mutex, it never waits for a
mutex (so never locks one it already holds), and it leaves the mutex unlocked
and the `value` field unchanged; and it returns when the counter of `wg` is
positive before the call (the call is counted by `wg.Add`). -/
theorem fix2_same_resource_locks_once (v : Nat) (s : State) (h : (s.heap v).mu = false) :
    mutexEvents (callPrintSum .fix2 v v s).performed = [.lock v, .unlock v] ∧
    (callPrintSum .fix2 v v s).status ≠ .blocked ∧
    ((callPrintSum .fix2 v v s).final.heap v).mu = false ∧
    ((callPrintSum .fix2 v v s).final.heap v).value = (s.heap v).value ∧
    (0 < s.wg → (callPrintSum .fix2 v v s).status = .returned) := by
  by_cases hw : s.wg - 1 < 0
  · have hw' : ¬ 0 < s.wg := by omega
    simp [callPrintSum, printSumOf, Fix2_LockOrdering.printSum, events, eventsFrom, runEvents,
      exec, setMu, mutexEvents, h, hw, hw']
  · simp [callPrintSum, printSumOf, Fix2_LockOrdering.printSum, events, eventsFrom, runEvents,
      exec, setMu, mutexEvents, h, hw]

/-- C9 (amended) at the call `printSum(&a, &a)` after `wg.Add(2)`. -/
theorem fix2_same_resource_locks_once_witness :
    (State.main.heap 0xc000012000).mu = false ∧
    mutexEvents (callPrintSum .fix2 0xc000012000 0xc000012000 State.main).performed =
      [.lock 0xc000012000, .unlock 0xc000012000] ∧
    (callPrintSum .fix2 0xc000012000 0xc000012000 State.main).status = .returned :=
  ⟨rfl, (fix2_same_resource_locks_once 0xc000012000 State.main rfl).1,
    (fix2_same_resource_locks_once 0xc000012000 State.main rfl).2.2.2.2 (by decide)⟩

/-- With the same resource as both arguments, its mutex unlocked, the
`printSum` of AvoidingDeadlock and of Fix1_LockOrdering lock the mutex and
then wait for it: the call never returns. -/
theorem same_resource_blocks_without_guard (v : Nat) (s : State) (h : (s.heap v).mu = false) :
    (callPrintSum .avoidingDeadlock v v s).status = .blocked ∧
    mutexEvents (callPrintSum .avoidingDeadlock v v s).performed = [.lock v] ∧
    (callPrintSum .fix1 v v s).status = .blocked ∧
    mutexEvents (callPrintSum .fix1 v v s).performed = [.lock v] := by
  simp [callPrintSum, printSumOf, AvoidingDeadlock.printSum, AvoidingDeadlock.firstSecond,
    Fix1_LockOrdering.printSum, events, eventsFrom, runEvents, exec, setMu, mutexEvents, h,
    strLt_irrefl]

/-! ## The counter -/

/-- A value in the range of `int` is not changed by wrapping. -/
theorem wrapInt_of_range (x : Int) (h0 : -2 ^ 63 ≤ x) (h1 : x < 2 ^ 63) : wrapInt x = x := by
  unfold wrapInt
  norm_num at h0 h1 ⊢
  omega

/-- `Inc` on an unlocked counter. -/
theorem SafeCounter.Inc_unlocked (c : SafeCounter) (h : c.mu = false) :
    c.Inc = some ⟨false, wrapInt (c.count + 1)⟩ := by
  simp [SafeCounter.Inc, h]

/-- `Value` on an unlocked counter. -/
theorem SafeCounter.Value_unlocked (c : SafeCounter) (h : c.mu = false) :
    c.Value = some (c.count, c) := by
  cases c with
  | mk mu count =>
    simp only at h
    subst h
    simp [SafeCounter.Value]

/-- Calls on an unlocked counter add the number of `Inc` among them, as long
as `count` stays below `2^63`. -/
theorem runCalls_unlocked (calls : List Call) :
    ∀ c : SafeCounter, c.mu = false → 0 ≤ c.count →
      c.count + (calls.count Call.inc : Int) < 2 ^ 63 →
      runCalls calls c = some ⟨false, c.count + (calls.count Call.inc : Int)⟩ := by
  induction calls with
  | nil =>
    intro c hmu _ _
    cases c with
    | mk mu count =>
      simp only at hmu
      subst hmu
      simp [runCalls]
  | cons call rest ih =>
    intro c hmu h0 hlt
    cases call with
    | inc =>
      have hcount : ((Call.inc :: rest).count Call.inc : Int) = (rest.count Call.inc : Int) + 1 := by
        simp
      rw [hcount] at hlt ⊢
      have hw : wrapInt (c.count + 1) = c.count + 1 :=
        wrapInt_of_range _ (by norm_num; omega) (by omega)
      simp only [runCalls, SafeCounter.Inc_unlocked c hmu, Option.some_bind, hw]
      rw [ih ⟨false, c.count + 1⟩ rfl (by simp only; omega) (by simp only; omega)]
      simp only [Option.some.injEq, SafeCounter.mk.injEq, true_and]
      omega
    | value =>
      have hcount : ((Call.value :: rest).count Call.inc : Int) = (rest.count Call.inc : Int) := by
        simp
      rw [hcount] at hlt ⊢
      simp only [runCalls, SafeCounter.Value_unlocked c hmu, Option.some_bind]
      exact ih c hmu h0 hlt

/-- C10: for the `SafeCounter` of `Mutex/cmd/lock` and every `n` below `2^63`,
after calls that contain `n` calls of `Inc` (and any calls of `Value`, in any
order) on a zero-valued counter, `Value` returns exactly `n`; each of the `Inc`
calls raises `count` by exactly 1, each `Value` returns `count` and leaves it
unchanged, and every call returns with the mutex unlocked. -/
theorem safeCounter_counts_incs (n : Nat) (hn : n < 2 ^ 63) (calls : List Call)
    (hcalls : calls.count Call.inc = n) :
    (∃ c, runCalls calls SafeCounter.zero = some c ∧ c.mu = false ∧ c.count = n ∧
      c.Value = some ((n : Int), c)) ∧
    (∀ before after, calls = before ++ Call.inc :: after →
      ∃ c c', runCalls before SafeCounter.zero = some c ∧ c.Inc = some c' ∧
        c'.count = c.count + 1 ∧ c'.mu = false) ∧
    (∀ before after, calls = before ++ Call.value :: after →
      ∃ c, runCalls before SafeCounter.zero = some c ∧ c.Value = some (c.count, c) ∧
        c.mu = false) := by
  have hn' : (n : Int) < 2 ^ 63 := by exact_mod_cast hn
  refine ⟨?_, ?_, ?_⟩
  · have h := runCalls_unlocked calls SafeCounter.zero rfl (le_refl _)
      (by simp only [SafeCounter.zero, hcalls]; omega)
    refine ⟨_, h, rfl, ?_, ?_⟩
    · simp [SafeCounter.zero, hcalls]
    · rw [SafeCounter.Value_unlocked _ rfl]
      simp [SafeCounter.zero, hcalls]
  · intro before after hsplit
    have hle : (before.count Call.inc : Int) + 1 ≤ n := by
      have : calls.count Call.inc = before.count Call.inc + (after.count Call.inc + 1) := by
        rw [hsplit]; simp
      omega
    have h := runCalls_unlocked before SafeCounter.zero rfl (le_refl _)
      (by simp only [SafeCounter.zero]; omega)
    refine ⟨_, _, h, SafeCounter.Inc_unlocked _ rfl, ?_, rfl⟩
    exact wrapInt_of_range _ (by simp only [SafeCounter.zero]; norm_num; omega)
      (by simp only [SafeCounter.zero]; omega)
  · intro before after hsplit
    have hle : (before.count Call.inc : Int) ≤ n := by
      have : calls.count Call.inc = before.count Call.inc + after.count Call.inc := by
        rw [hsplit]; simp
      omega
    have h := runCalls_unlocked before SafeCounter.zero rfl (le_refl _)
      (by simp only [SafeCounter.zero]; omega)
    exact ⟨_, h, SafeCounter.Value_unlocked _ rfl, rfl⟩

/-- C10 at `main`: 1000 calls of `Inc` give a final count of 1000. -/
theorem safeCounter_counts_incs_witness :
    (1000 : Nat) < 2 ^ 63 ∧ mainCalls.count Call.inc = 1000 ∧
    ∃ c, runCalls mainCalls SafeCounter.zero = some c ∧ c.mu = false ∧ c.count = 1000 ∧
      c.Value = some (1000, c) :=
  ⟨by norm_num, List.count_replicate_self _ _,
    (safeCounter_counts_incs 1000 (by norm_num) mainCalls (List.count_replicate_self _ _)).1⟩

/-! ## The simulated file -/

/-- The built-in `copy` into a slice at least as long as the source copies the
whole source. -/
theorem Composition.copy_of_le (dst src : List Nat) (h : src.length ≤ dst.length) :
    (copy dst src).1 = src.length ∧ (copy dst src).2.take src.length = src := by
  simp [copy, Nat.min_eq_right h]

/-- C11: for the `FileProcessor` of Composition, `Read` undoes `Write`: with
empty `contents`, a non-empty `data` and a buffer at least as long as `data`,
`Write(data)` returns `(len(data), nil)`, a following `Read(buffer)` returns
`(len(data), nil)` with `buffer[:n]` equal to `data` and leaves `contents`
empty, and a second `Read` returns `(0, io.EOF)`.  `ProcessFile` on the empty
file of `main` reads back `Hello, World` and returns `nil`. -/
theorem fileProcessor_read_undoes_write (f : Composition.FileProcessor) (data buffer : List Nat)
    (hf : f.contents = []) (hd : data ≠ []) (hb : data.length ≤ buffer.length) :
    (f.Write data).n = data.length ∧ (f.Write data).err = none ∧
    ((f.Write data).file.Read buffer).n = data.length ∧
    ((f.Write data).file.Read buffer).err = none ∧
    ((f.Write data).file.Read buffer).data.take ((f.Write data).file.Read buffer).n = data ∧
    ((f.Write data).file.Read buffer).file.contents = [] ∧
    (∀ buffer2 : List Nat,
      (((f.Write data).file.Read buffer).file.Read buffer2).n = 0 ∧
      (((f.Write data).file.Read buffer).file.Read buffer2).err = some .EOF) ∧
    (Composition.ProcessFile Composition.mainFile []).err = none ∧
    (Composition.ProcessFile Composition.mainFile []).out =
      [.read Composition.helloWorld, .closing "example.txt"] := by
  have hlen : data.length ≠ 0 := fun h => hd (List.length_eq_zero.mp h)
  have hc := Composition.copy_of_le buffer data hb
  have hw : (f.Write data).file.contents = data := by
    simp [Composition.FileProcessor.Write, hf]
  have hr : (f.Write data).file.Read buffer =
      ⟨(Composition.copy buffer data).1, none, (Composition.copy buffer data).2,
        { (f.Write data).file with contents := data.drop (Composition.copy buffer data).1 }⟩ := by
    simp [Composition.FileProcessor.Read, hw, hlen]
  refine ⟨rfl, rfl, ?_, ?_, ?_, ?_, ?_, ?_, ?_⟩
  · rw [hr]; exact hc.1
  · rw [hr]
  · rw [hr]; simp only [hc.1]; exact hc.2
  · rw [hr]; simp [hc.1]
  · intro buffer2
    rw [hr]
    simp [Composition.FileProcessor.Read, hc.1]
  · decide
  · decide

/-- C11 at `main`: the file `example.txt` with empty contents, the bytes of
`Hello, World` and the buffer of 100 bytes of `ProcessFile`. -/
theorem fileProcessor_read_undoes_write_witness :
    Composition.mainFile.contents = [] ∧ Composition.helloWorld ≠ [] ∧
    Composition.helloWorld.length ≤ (List.replicate 100 0).length ∧
    ((Composition.mainFile.Write Composition.helloWorld).file.Read
      (List.replicate 100 0)).n = 12 ∧
    ((Composition.mainFile.Write Composition.helloWorld).file.Read
      (List.replicate 100 0)).file.contents = [] :=
  ⟨rfl, by decide, by decide,
    (fileProcessor_read_undoes_write Composition.mainFile Composition.helloWorld
      (List.replicate 100 0) rfl (by decide) (by decide)).2.2.1,
    (fileProcessor_read_undoes_write Composition.mainFile Composition.helloWorld
      (List.replicate 100 0) rfl (by decide) (by decide)).2.2.2.2.2.1⟩

end GoSnippets
